import Mathlib

/-!
Verification of the `dateBone` field descriptor of this repository
(`src/bones/dateBone.py`) and of the per-language `fromClient` lifting
described by the spec (tested by `src/tests/bones/test_string_bone.py`).

The embedding works over `List Char` (client input is form-submitted text;
ASCII is assumed, which covers every string the spec and the claims
mention).  Python exceptions are modelled explicitly: a function that can
raise returns `Except String _` or reports a `FCRet.raised` outcome;
`try/except` blocks in the source become `Option`-valued parsing with the
caught-exception branch inlined.
-/

namespace ViurDateBone

/-- Python whitespace for `str.strip()` and the `\s` regex class:
space (32), tab (9), and the four control characters 10..13
(`\n`, `\v`, `\f`, `\r`). -/
def isPyWs (c : Char) : Bool :=
  decide (c.toNat = 32 ∨ c.toNat = 9 ∨ (10 ≤ c.toNat ∧ c.toNat ≤ 13))

/-- Numeric value of a digit character (`'0'` ↦ 0, ..., `'9'` ↦ 9). -/
def dVal (c : Char) : Nat := c.toNat - 48

/-- The decimal digit character for `k % 10`. -/
def digitChar (k : Nat) : Char :=
  match k % 10 with
  | 0 => '0' | 1 => '1' | 2 => '2' | 3 => '3' | 4 => '4'
  | 5 => '5' | 6 => '6' | 7 => '7' | 8 => '8' | _ => '9'

/-- Python `str.isdigit()` (ASCII): nonempty and all characters are digits. -/
def pyIsDigit (l : List Char) : Bool :=
  !l.isEmpty && l.all Char.isDigit

/-- Python `str.replace(old, "", 1)` for a one-character `old`:
remove the first occurrence of `c`, if any. -/
def removeFirst (c : Char) : List Char → List Char
  | [] => []
  | x :: xs => if x = c then xs else x :: removeFirst c xs

/-- Python `str.strip()` (ASCII whitespace on both ends). -/
def trimWs (l : List Char) : List Char :=
  ((l.dropWhile isPyWs).reverse.dropWhile isPyWs).reverse

/-- Python `str.split(sep)` for a one-character separator: splits on every
occurrence, keeping empty pieces (`"a::b".split(":") == ["a", "", "b"]`). -/
def splitCh (sep : Char) : List Char → List (List Char)
  | [] => [[]]
  | x :: xs =>
    match splitCh sep xs with
    | [] => [[x]]
    | r :: rs => if x = sep then [] :: r :: rs else (x :: r) :: rs

/-- Python `str.lower()` restricted to ASCII. -/
def pyToLower (l : List Char) : List Char :=
  l.map fun c => if 'A' ≤ c ∧ c ≤ 'Z' then Char.ofNat (c.toNat + 32) else c

/-- Python `str(value)` for an optional string: a missing request value is
`None` and `str(None) == "None"` (dateBone.fromClient lines 101-105). -/
def pyStr (value : Option String) : List Char :=
  match value with
  | none => "None".data
  | some s => s.data

/-- Digit run with single underscores between digits, as accepted by
Python 3 `int()` after the optional sign; accumulator-style value. -/
def parseIntDigits (acc : Nat) : List Char → Option Nat
  | [] => some acc
  | c :: cs =>
    if c.isDigit then parseIntDigits (acc * 10 + dVal c) cs
    else if c = '_' then
      match cs with
      | c2 :: cs2 =>
        if c2.isDigit then parseIntDigits (acc * 10 + dVal c2) cs2 else none
      | [] => none
    else none

/-- Unsigned digit run (must start with a digit). -/
def parseUnsigned : List Char → Option Nat
  | [] => none
  | c :: cs => if c.isDigit then parseIntDigits (dVal c) cs else none

/-- Python `int(s)` on a string (ASCII): strip whitespace, optional single
sign, then digits (with underscores allowed between digits); `none` models
the `ValueError` that `int` raises on anything else. -/
def pyInt : List Char → Option Int := fun l =>
  match trimWs l with
  | '-' :: rest => (parseUnsigned rest).map fun n => -(n : Int)
  | '+' :: rest => (parseUnsigned rest).map fun n => (n : Int)
  | t => (parseUnsigned t).map fun n => (n : Int)

/-- The guard of dateBone.fromClient line 106:
`str(value).replace("-", "", 1).replace(".", "", 1).isdigit()`. -/
def digitCheck (l : List Char) : Bool :=
  pyIsDigit (removeFirst '.' (removeFirst '-' l))

/-- The guard of dateBone.fromClient line 121 (time-only branch):
`str(value).replace("-", "", 1).isdigit()`. -/
def digitCheckNoDot (l : List Char) : Bool :=
  pyIsDigit (removeFirst '-' l)

/-- A naive Python `datetime.datetime` (the `ExtendedDateTime` subclass adds
no field); `tzinfo` stays `None` everywhere in the claims' scope. -/
structure PyDateTime where
  year : Nat
  month : Nat
  day : Nat
  hour : Nat
  minute : Nat
  second : Nat
  microsecond : Nat
  deriving DecidableEq, Repr

/-- Gregorian leap year, as in Python's `calendar`/`datetime`. -/
def isLeap (y : Nat) : Bool :=
  (y % 4 = 0 && y % 100 ≠ 0) || y % 400 = 0

/-- Days in a month, as validated by the `datetime` constructor. -/
def daysInMonth (y m : Nat) : Nat :=
  if m = 2 then (if isLeap y then 29 else 28)
  else if m = 4 ∨ m = 6 ∨ m = 9 ∨ m = 11 then 30
  else 31

/-- The validity condition the Python `datetime` constructor enforces
(`MINYEAR = 1`, `MAXYEAR = 9999`). -/
def validB (v : PyDateTime) : Bool :=
  1 ≤ v.year && v.year ≤ 9999 && 1 ≤ v.month && v.month ≤ 12 &&
  1 ≤ v.day && v.day ≤ daysInMonth v.year v.month &&
  v.hour ≤ 23 && v.minute ≤ 59 && v.second ≤ 59 && v.microsecond ≤ 999999

/-- `datetime(y, mo, d, h, mi, s)`: `none` models the `ValueError` the
constructor raises on out-of-range fields. -/
def mkDateTime (y mo d h mi s : Nat) : Option PyDateTime :=
  let v : PyDateTime := ⟨y, mo, d, h, mi, s, 0⟩
  if validB v then some v else none

/-- A 1-or-2-digit numeric field of a `strptime` format (such as `%d`, `%H`).
CPython's `_strptime` compiles these to an alternation that prefers the
two-digit match (e.g. `%d` is `3[01]|[12]\d|0[1-9]|[1-9]`): take two digits
when their value lies in `[lo2, hi2]`, else one digit in `[lo1, hi1]`.
For the fixed separator-delimited formats used by dateBone this
deterministic rule is observationally equal to the backtracking regex,
because a shorter field match always leaves a digit where the following
non-digit literal (or the end of the pattern) must match. -/
def pN2 (lo2 hi2 lo1 hi1 : Nat) : List Char → Option (Nat × List Char)
  | c1 :: c2 :: rest =>
    let v2 := dVal c1 * 10 + dVal c2
    if c1.isDigit = true ∧ c2.isDigit = true ∧ lo2 ≤ v2 ∧ v2 ≤ hi2 then
      some (v2, rest)
    else if c1.isDigit = true ∧ lo1 ≤ dVal c1 ∧ dVal c1 ≤ hi1 then
      some (dVal c1, c2 :: rest)
    else none
  | [c1] =>
    if c1.isDigit = true ∧ lo1 ≤ dVal c1 ∧ dVal c1 ≤ hi1 then
      some (dVal c1, [])
    else none
  | [] => none

/-- The `%Y` field of `strptime`: exactly four digits (`\d\d\d\d`). -/
def p4Y : List Char → Option (Nat × List Char)
  | a :: b :: c :: d :: rest =>
    if a.isDigit = true ∧ b.isDigit = true ∧ c.isDigit = true ∧ d.isDigit = true then
      some (((dVal a * 10 + dVal b) * 10 + dVal c) * 10 + dVal d, rest)
    else none
  | _ => none

/-- A literal character of a `strptime` format. -/
def pLit (ch : Char) : List Char → Option (List Char)
  | c :: cs => if c = ch then some cs else none
  | [] => none

/-- A whitespace character of a `strptime` format; `_strptime` compiles it
to `\s+` (one or more whitespace characters, matched greedily). -/
def pWs1 : List Char → Option (List Char)
  | c :: cs => if isPyWs c then some (cs.dropWhile isPyWs) else none
  | [] => none

/-- The three date formats dateBone disambiguates by separator
(lines 140-159): ISO `%Y-%m-%d`, US `%m/%d/%Y`, European `%d.%m.%Y`. -/
inductive Sep where
  | iso | us | eu
  deriving DecidableEq, Repr

/-- Separator dispatch of dateBone.fromClient (`"-" in value`,
`"/" in value`, else European). -/
def sepOf (l : List Char) : Sep :=
  if l.contains '-' then .iso else if l.contains '/' then .us else .eu

/-- Parse the date fields of one of the three formats, returning
`(year, month, day)` and the unconsumed input. -/
def pDateFields : Sep → List Char → Option ((Nat × Nat × Nat) × List Char)
  | .iso, l => do
    let (y, l) ← p4Y l
    let l ← pLit '-' l
    let (mo, l) ← pN2 1 12 1 9 l
    let l ← pLit '-' l
    let (d, l) ← pN2 1 31 1 9 l
    pure ((y, mo, d), l)
  | .us, l => do
    let (mo, l) ← pN2 1 12 1 9 l
    let l ← pLit '/' l
    let (d, l) ← pN2 1 31 1 9 l
    let l ← pLit '/' l
    let (y, l) ← p4Y l
    pure ((y, mo, d), l)
  | .eu, l => do
    let (d, l) ← pN2 1 31 1 9 l
    let l ← pLit '.' l
    let (mo, l) ← pN2 1 12 1 9 l
    let l ← pLit '.' l
    let (y, l) ← p4Y l
    pure ((y, mo, d), l)

/-- `ExtendedDateTime.strptime(s, <date-only format>)`: the regex must
match, no unconverted data may remain, and the `datetime` constructor must
accept the fields; `none` models the `ValueError` of any of the three. -/
def strptimeD (sep : Sep) (l : List Char) : Option PyDateTime := do
  let ((y, mo, d), rest) ← pDateFields sep l
  if rest = [] then mkDateTime y mo d 0 0 0 else none

/-- `ExtendedDateTime.strptime(s, <date format + " %H:%M:%S">)` when
`withSec`, else `<date format + " %H:%M">`.  `%S` matches `6[0-1]|[0-5]\d|\d`
but 60 and 61 are then refused by the `datetime` constructor, so seconds
0-59 are the accepted net range, folded into `mkDateTime`. -/
def strptimeDT (sep : Sep) (withSec : Bool) (l : List Char) : Option PyDateTime := do
  let ((y, mo, d), l) ← pDateFields sep l
  let l ← pWs1 l
  let (h, l) ← pN2 0 23 0 9 l
  let l ← pLit ':' l
  let (mi, l) ← pN2 0 59 0 9 l
  if withSec then do
    let l ← pLit ':' l
    let (s, l) ← pN2 0 59 0 9 l
    if l = [] then mkDateTime y mo d h mi s else none
  else
    if l = [] then mkDateTime y mo d h mi 0 else none

/-- Two-digit zero-padded field of `strftime` (`%d`, `%m`, `%H`, `%M`, `%S`);
the source only formats constructor-validated values, so `n ≤ 99`. -/
def pad2 (n : Nat) : List Char := [digitChar (n / 10), digitChar n]

/-- Four-digit zero-padded `%Y` of `strftime` (values are `≤ 9999`). -/
def pad4 (n : Nat) : List Char :=
  [digitChar (n / 1000), digitChar (n / 100), digitChar (n / 10), digitChar n]

/-- `value.strftime("%d.%m.%Y %H:%M:%S")` (the microsecond field is not
printed, which is how serialize/unserialize truncate to second precision). -/
def strftimeDT (v : PyDateTime) : List Char :=
  pad2 v.day ++ '.' :: (pad2 v.month ++ '.' :: (pad4 v.year ++ ' ' ::
    (pad2 v.hour ++ ':' :: (pad2 v.minute ++ ':' :: pad2 v.second))))

/-- The configuration of a `dateBone` (`__init__` parameters `date`, `time`,
`localize`; the magic flags play no role in the embedded operations). -/
structure DateBoneCfg where
  date : Bool
  time : Bool
  localize : Bool
  deriving DecidableEq, Repr

/-- A value dateBone can hold in `valuesCache[name]`.  `dtv` is a concrete
naive `ExtendedDateTime`; `tsv t` is `ExtendedDateTime.fromtimestamp(t)`
(its wall-clock fields depend on the server's local timezone, so it is kept
symbolic); `todv` is a `datetime.time`; `nowv off` is
`ExtendedDateTime.now() + timedelta(seconds=off)`; `locv zone orig` is
`tz.normalize(orig.replace(tzinfo=utc).astimezone(tz))` for the pytz zone
`zone` (the pytz arithmetic is external to the repository and kept
symbolic). -/
inductive CacheVal where
  | dtv (v : PyDateTime)
  | tsv (t : Int)
  | todv (hour minute second : Nat)
  | nowv (offsetSeconds : Int)
  | locv (zone : String) (orig : CacheVal)
  deriving DecidableEq, Repr

/-- What a call of `dateBone.fromClient` does besides writing the cache:
return `None` (success), return an error string, return the bare `False` of
line 126, or raise an uncaught exception. -/
inductive FCRet where
  | ok
  | err (msg : String)
  | rfalse
  | raised (exn : String)
  deriving DecidableEq, Repr

/-- The time-only branch of `fromClient` (lines 111-126, reached when
`date=False` and `time=True` and the line-106 digit check failed): split on
`":"`, `int(part.strip())` each piece (a failure is caught and reported),
build a `datetime.time` (whose constructor validates the ranges); with no
colon, retry the digit check without the dot removal and build
`time(second=int(value))`; otherwise fall through to `return False`. -/
def timeOnlyBranch (l : List Char) : Option CacheVal × FCRet :=
  if l.count ':' > 1 then
    match (splitCh ':' l).mapM fun p => pyInt (trimWs p) with
    | some [h, mi, s] =>
      if 0 ≤ h ∧ h ≤ 23 ∧ 0 ≤ mi ∧ mi ≤ 59 ∧ 0 ≤ s ∧ s ≤ 59 then
        (some (.todv h.toNat mi.toNat s.toNat), .ok)
      else (none, .err "Invalid value entered")
    | some _ => (none, .err "Invalid value entered")
    | none => (none, .err "Invalid value entered")
  else if l.count ':' > 0 then
    match (splitCh ':' l).mapM fun p => pyInt (trimWs p) with
    | some [h, mi] =>
      if 0 ≤ h ∧ h ≤ 23 ∧ 0 ≤ mi ∧ mi ≤ 59 then
        (some (.todv h.toNat mi.toNat 0), .ok)
      else (none, .err "Invalid value entered")
    | some _ => (none, .err "Invalid value entered")
    | none => (none, .err "Invalid value entered")
  else if digitCheckNoDot l then
    match pyInt l with
    | some s =>
      if 0 ≤ s ∧ s ≤ 59 then (some (.todv 0 0 s.toNat), .ok)
      else (none, .err "Invalid value entered")
    | none => (none, .err "Invalid value entered")
  else (none, .rfalse)

/-- The date-string branch of `fromClient` (lines 136-163, all inside one
`try/except`): with a space, try the seconds format for the
separator-selected date format, then fall back to minute precision; without
a space, the date-only format; any failure is the caught `ValueError`,
reported as `"Invalid value entered"`. -/
def dateStringBranch (l : List Char) : Option CacheVal × FCRet :=
  if l.contains ' ' then
    match strptimeDT (sepOf l) true l with
    | some v => (some (.dtv v), .ok)
    | none =>
      match strptimeDT (sepOf l) false l with
      | some v => (some (.dtv v), .ok)
      | none => (none, .err "Invalid value entered")
  else
    match strptimeD (sepOf l) l with
    | some v => (some (.dtv v), .ok)
    | none => (none, .err "Invalid value entered")

/-- Embedding of `dateBone.fromClient(valuesCache, name, data)`
(lines 86-163).  `value` is `data[name]` when `name in data`, else `None`.
Line 105 sets `valuesCache[name] = None` before any branch, so the result
cache value is independent of the previous cache content; the returned pair
is (new `valuesCache[name]`, returned/raised outcome).

Branches, in source order: the line-106 digit check (where `int(value)` is
evaluated outside any `try` and raises `ValueError` for strings such as
`"3.5"` or `"1-2"` that pass the check but are no integer literal), the
31-bit range test, `fromtimestamp`; the time-only branch; the `"now"`
keyword with its silently-defaulted offset (`int(str(value)[3:])`, failures
swallowed, attempted only when `len(str(value)) > 4`); the date-string
branch (where a `None` value makes `" " in value` raise a `TypeError` that
the `except` of line 161 catches). -/
def fromClient (cfg : DateBoneCfg) (value : Option String) : Option CacheVal × FCRet :=
  let l := pyStr value
  if digitCheck l then
    match pyInt l with
    | none => (none, .raised "ValueError")
    | some t =>
      if t < -(2 ^ 30) ∨ t > 2 ^ 31 - 2 then (none, .err "Invalid value entered")
      else (some (.tsv t), .ok)
  else if !cfg.date && cfg.time then
    timeOnlyBranch l
  else if (pyToLower l).take 3 = ['n', 'o', 'w'] then
    let off : Int := if l.length > 4 then (pyInt (l.drop 3)).getD 0 else 0
    (some (.nowv off), .ok)
  else
    match value with
    | none => (none, .err "Invalid value entered")
    | some s => dateStringBranch s.data

/-- The request-scoped environment `guessTimeZone` reads (lines 165-190).
`hasRequest` is whether `request.current` yields a live interactive request
(when it does not, the access raises inside the `try`); `requestTimeZone`
is the `requestData()["timeZone"]` cache; `countryHeader` is the
`X-Appengine-Country` header; `pytzAvail` is whether the `pytz` import
succeeded; `countryZones` is `pytz.country_timezones` (`none` models the
`KeyError` for an unknown country code). -/
structure TZCtx where
  hasRequest : Bool
  requestTimeZone : Option String
  countryHeader : Option String
  pytzAvail : Bool
  countryZones : String → Option (List String)

/-- Embedding of `dateBone.guessTimeZone` (lines 165-190): returns the
guessed zone and the updated request state.  Any exception inside the `try`
(no request context, `pytz is None`, unknown country) returns the `"UTC"`
default *without* caching; the cache write of line 189 happens only after a
successful `country_timezones` lookup. -/
def guessTimeZone (ctx : TZCtx) : String × TZCtx :=
  if !ctx.hasRequest then ("UTC", ctx)
  else
    match ctx.requestTimeZone with
    | some tz => (tz, ctx)
    | none =>
      match ctx.countryHeader with
      | none => ("UTC", ctx)
      | some country =>
        if !ctx.pytzAvail then ("UTC", ctx)
        else
          match ctx.countryZones country with
          | none => ("UTC", ctx)
          | some tzList =>
            let tz :=
              match tzList with
              | [single] => single
              | _ => if (pyToLower country.data) = ['u', 's'] then "EST" else "UTC"
            (tz, { ctx with requestTimeZone := some tz })

/-- The timezone resolution of the amended claim C7, written from the
spec's words with the caching clause corrected: a cached value is returned
first; an unresolvable lookup (no interactive request, missing geolocation
header, missing timezone library, unknown country) yields `"UTC"` without
touching the cache; a successful country lookup yields the single zone,
the fixed `"EST"` fallback for `"us"`, or `"UTC"` when ambiguous, and only
then is the result cached in request-scoped storage. -/
def guessTimeZoneSpec (ctx : TZCtx) : String × TZCtx :=
  match ctx.hasRequest, ctx.requestTimeZone with
  | true, some cached => (cached, ctx)
  | true, none =>
    let resolved : Option String :=
      match ctx.countryHeader with
      | none => none
      | some country =>
        if ctx.pytzAvail then
          match ctx.countryZones country with
          | some [onlyZone] => some onlyZone
          | some _ =>
            some (if (pyToLower country.data) = ['u', 's'] then "EST" else "UTC")
          | none => none
        else none
    match resolved with
    | some tz => (tz, { ctx with requestTimeZone := some tz })
    | none => ("UTC", ctx)
  | false, _ => ("UTC", ctx)

/-- Embedding of `dateBone.readLocalized` (lines 192-211).  The guard of
line 195 is `if 1 or not self.localize or not value or not isinstance(...)`:
the literal `1` makes it constantly true, so the function always returns
its argument unchanged; the pytz conversion code of lines 197-210 (tag with
zone, normalize, re-impose the wall-clock fields, convert to UTC) is
unreachable and therefore not modelled — there is no reachable source text
it could embed. -/
def readLocalized (cfg : DateBoneCfg) (value : PyDateTime) : PyDateTime :=
  if true || !cfg.localize then value else value

/-- Python truthiness of a cache value: `datetime` objects are always
truthy; under Python 2 a `datetime.time` equal to midnight is falsy. -/
def cvTruthy : CacheVal → Bool
  | .todv 0 0 0 => false
  | _ => true

/-- `isinstance(value, ExtendedDateTime)` for a cache value (`datetime.time`
is not a datetime; the pytz conversion results keep the class). -/
def isExtDT : CacheVal → Bool
  | .todv _ _ _ => false
  | _ => true

/-- Embedding of `dateBone.setLocalized` (lines 237-247): store the value;
when the bone localizes, the value is truthy and is an `ExtendedDateTime`,
guess the zone and — when it is not `"UTC"` and pytz is present — replace
the stored value by `tz.normalize(value.replace(tzinfo=utc).astimezone(tz))`
(kept symbolic as `CacheVal.locv`). -/
def setLocalized (cfg : DateBoneCfg) (ctx : TZCtx) (value : CacheVal) :
    CacheVal × TZCtx :=
  if cfg.localize && cvTruthy value && isExtDT value then
    let (tz, ctx1) := guessTimeZone ctx
    if tz ≠ "UTC" && ctx1.pytzAvail then (.locv tz value, ctx1)
    else (value, ctx1)
  else (value, ctx)

/-- A value stored under the bone's name in the datastore entity. -/
inductive EntVal where
  | num (t : Int)
  | dtv (v : PyDateTime)
  | todv (hour minute second : Nat)
  | garbage
  deriving Repr

/-- `entity.set(name, res, ...)` argument for the non-truthy cache value
that serialize stores unchanged (only the falsy midnight `time` and `None`
reach this path). -/
def entOf : CacheVal → EntVal
  | .dtv v => .dtv v
  | .todv h mi s => .todv h mi s
  | _ => .garbage

/-- `strftime("%d.%m.%Y %H:%M:%S")` of a cache value.  A `datetime.time`
formats with the fixed date 1900-01-01.  The symbolic values
(`fromtimestamp`/`now`/pytz results) have no concrete wall-clock fields in
the model, so their formatting is not representable (`none`); no claim
serializes one. -/
def strftimeCV : CacheVal → Option (List Char)
  | .dtv v => some (strftimeDT v)
  | .todv h mi s => some (strftimeDT ⟨1900, 1, 1, h, mi, s, 0⟩)
  | _ => none

/-- Embedding of `dateBone.serialize(valuesCache, name, entity)`
(lines 213-218): a truthy cache value is round-tripped through
`strptime(res.strftime("%d.%m.%Y %H:%M:%S"), ...)` (truncating to second
precision; the `strptime` call is not inside any `try`, so its failure
would raise) and passed through `readLocalized`; the result — or the
unchanged falsy value — is stored under the name.  Returns the entity
slot. -/
def serialize (cfg : DateBoneCfg) (cache : Option CacheVal) :
    Except String (Option EntVal) :=
  match cache with
  | none => .ok none
  | some v =>
    if cvTruthy v then
      match strftimeCV v with
      | none => .error "symbolic datetime: strftime fields not modelled"
      | some chars =>
        match strptimeDT .eu true chars with
        | some w => .ok (some (.dtv (readLocalized cfg w)))
        | none => .error "ValueError"
    else .ok (some (entOf v))

/-- Embedding of `dateBone.unserialize(valuesCache, name, expando)`
(lines 220-235).  An absent name yields `None`.  A truthy stored number is
`fromtimestamp` (then localized) for a date bone, else
`time(hour=int(v/60), minute=int(v%60))` — Python 2 floor division and
floor modulus, with the uncaught `ValueError` when the hour leaves 0..23.
A stored `datetime` is truncated through the strftime/strptime round trip
and localized.  Anything else (including a stored `None` or `0`) is
garbage and yields `None`.  Returns (new `valuesCache[name]`, updated
request state). -/
def unserialize (cfg : DateBoneCfg) (ctx : TZCtx) (ent : Option EntVal) :
    Except String (Option CacheVal × TZCtx) :=
  match ent with
  | none => .ok (none, ctx)
  | some (.num t) =>
    if t ≠ 0 then
      if cfg.date then
        let (v, ctx1) := setLocalized cfg ctx (.tsv t)
        .ok (some v, ctx1)
      else
        let h := t.fdiv 60
        if 0 ≤ h ∧ h ≤ 23 then
          .ok (some (.todv h.toNat (t.fmod 60).toNat 0), ctx)
        else .error "ValueError"
    else .ok (none, ctx)
  | some (.dtv v) =>
    match strptimeDT .eu true (strftimeDT v) with
    | some w =>
      let (cv, ctx1) := setLocalized cfg ctx (.dtv w)
      .ok (some cv, ctx1)
    | none => .error "ValueError"
  | some (.todv _ _ _) => .ok (none, ctx)
  | some .garbage => .ok (none, ctx)

/-- Embedding of `dateBone.buildDBFilter(name, skel, dbFilter, rawFilter)`
(lines 249-253).  For every raw-filter key starting with the bone name the
loop body executes `self.fromClient(key, rawFilter)` — two arguments for
the three required parameters of `fromClient(valuesCache, name, data)` —
which raises `TypeError` before any parsing happens (the body also reads
the nonexistent attribute `self.value`).  With no matching key the loop
body never runs and the query is returned unchanged. -/
def buildDBFilter (name : String) (rawFilter : List (String × String))
    (dbFilter : List (String × String)) : Except String (List (String × String)) :=
  if rawFilter.any fun kv => name.data.isPrefixOf kv.1.data then .error "TypeError"
  else .ok dbFilter

/-- The value a language slot holds after `fromClient`: an optional scalar
for a single bone, an ordered list for a multiple bone. -/
inductive LangVal where
  | single (v : Option String)
  | multi (vs : List String)
  deriving DecidableEq, Repr

/-- First binding of a key in an association list (request data / cache). -/
def lookupKV {α : Type} (data : List (String × α)) (key : String) : Option α :=
  match data with
  | [] => none
  | (k, v) :: rest => if k = key then some v else lookupKV rest key

/-- Modelled from the spec: the per-language lifting of `fromClient` for a
bone configured with a language list (`BaseBone.fromClient`; the
implementation is not under `src/`, only its tests in
`src/tests/bones/test_string_bone.py`).  Spec §4.3/§4.4: the field looks up
the `name.<lang>` variant in the request data for each configured language;
a submitted language gets the parsed value, every other configured language
defaults to `None` (single) or the empty list (multiple) and is never
omitted, and no unconfigured language key appears. -/
def langFromClient (multiple : Bool) (languages : List String) (name : String)
    (data : List (String × String)) : List (String × LangVal) :=
  languages.map fun lang =>
    (lang,
      match lookupKV data (name ++ "." ++ lang) with
      | some raw => if multiple then .multi [raw] else .single (some raw)
      | none => if multiple then .multi [] else .single none)

/-- Little-to-big-endian decimal digits of `n`, with enough fuel
(structural recursion so the kernel can evaluate it). -/
def natDecCharsAux : Nat → Nat → List Char
  | 0, _ => []
  | fuel + 1, n =>
    if n < 10 then [digitChar n]
    else natDecCharsAux fuel (n / 10) ++ [digitChar (n % 10)]

/-- The characters of the decimal representation of an integer. -/
def decChars (t : Int) : List Char :=
  if t < 0 then '-' :: natDecCharsAux (t.natAbs + 1) t.natAbs
  else natDecCharsAux (t.natAbs + 1) t.natAbs

/-- The decimal string of an integer (`str(t)` in Python). -/
def decString (t : Int) : String := ⟨decChars t⟩

/-- A pure numeric string: an optional leading minus sign followed by
digits only (the decimal form of an integer). -/
def pureNumeric (l : List Char) : Bool :=
  match l with
  | '-' :: ds => pyIsDigit ds
  | ds => pyIsDigit ds

/-- The default `dateBone()` configuration: `date=True, time=True,
localize=False`. -/
def cfgDT : DateBoneCfg := ⟨true, true, false⟩

/-- A time-only bone: `date=False, time=True` (`localize` must be `False`
for this combination, which the constructor enforces). -/
def cfgTimeOnly : DateBoneCfg := ⟨false, true, false⟩

/-- Truncation to second precision (what the strftime/strptime round trip
of serialize and unserialize performs on an in-range datetime). -/
def truncSec (v : PyDateTime) : PyDateTime := { v with microsecond := 0 }

/-- Claim C1's dichotomy at one input: the call either caches `None` and
returns an error string, or caches the parsed value and returns `None`. -/
def c1TwoOutcomes (cfg : DateBoneCfg) (value : Option String) : Prop :=
  (∃ msg, fromClient cfg value = (none, .err msg)) ∨
  (∃ v, fromClient cfg value = (some v, .ok))

/-- Claim C3's assertion about the digits-only input `"90"` on a time-only
bone: the cache ends up holding `time(second=90)`. -/
def c3SecondsClaim : Prop :=
  (fromClient cfgTimeOnly (some "90")).1 = some (.todv 0 0 90)

/-- A request state with no cached timezone and no geolocation header
(a local development server), with pytz importable. -/
def ctxNoHeader : TZCtx :=
  { hasRequest := true, requestTimeZone := none, countryHeader := none,
    pytzAvail := true, countryZones := fun _ => none }

/-- Claim C7's caching clause at one request state: after the call, the
request-scoped cache holds the returned zone. -/
def c7CachedAfter (ctx : TZCtx) : Prop :=
  ((guessTimeZone ctx).2).requestTimeZone = some ((guessTimeZone ctx).1)

theorem digitChar_eq (k : Nat) :
    digitChar k = '0' ∨ digitChar k = '1' ∨ digitChar k = '2' ∨ digitChar k = '3' ∨
    digitChar k = '4' ∨ digitChar k = '5' ∨ digitChar k = '6' ∨ digitChar k = '7' ∨
    digitChar k = '8' ∨ digitChar k = '9' := by
  have h : k % 10 < 10 := Nat.mod_lt _ (by omega)
  rcases (by omega :
      k % 10 = 0 ∨ k % 10 = 1 ∨ k % 10 = 2 ∨ k % 10 = 3 ∨ k % 10 = 4 ∨
      k % 10 = 5 ∨ k % 10 = 6 ∨ k % 10 = 7 ∨ k % 10 = 8 ∨ k % 10 = 9) with
    h0 | h0 | h0 | h0 | h0 | h0 | h0 | h0 | h0 | h0 <;>
    simp [digitChar, h0]

theorem digitChar_isDigit (k : Nat) : (digitChar k).isDigit = true := by
  rcases digitChar_eq k with h | h | h | h | h | h | h | h | h | h <;> rw [h] <;> decide

theorem dVal_digitChar (k : Nat) : dVal (digitChar k) = k % 10 := by
  have h : k % 10 < 10 := Nat.mod_lt _ (by omega)
  rcases (by omega :
      k % 10 = 0 ∨ k % 10 = 1 ∨ k % 10 = 2 ∨ k % 10 = 3 ∨ k % 10 = 4 ∨
      k % 10 = 5 ∨ k % 10 = 6 ∨ k % 10 = 7 ∨ k % 10 = 8 ∨ k % 10 = 9) with
    h0 | h0 | h0 | h0 | h0 | h0 | h0 | h0 | h0 | h0 <;>
    simp only [digitChar, h0] <;> decide

theorem isPyWs_digitChar (k : Nat) : isPyWs (digitChar k) = false := by
  rcases digitChar_eq k with h | h | h | h | h | h | h | h | h | h <;> rw [h] <;> decide

theorem isDigit_not_ws {c : Char} (h : c.isDigit = true) : isPyWs c = false := by
  simp only [Char.isDigit] at h
  simp only [isPyWs, decide_eq_false_iff_not]
  have h1 := h
  simp only [Bool.and_eq_true, decide_eq_true_eq] at h1
  have hlo : 48 ≤ c.toNat := by
    have := h1.1
    simpa [Char.le_def, Char.toNat] using this
  omega

theorem isDigit_ne_chars {c : Char} (h : c.isDigit = true) :
    c ≠ '-' ∧ c ≠ '.' ∧ c ≠ '+' ∧ c ≠ ':' := by
  refine ⟨?_, ?_, ?_, ?_⟩ <;> rintro rfl <;> simp at h

theorem removeFirst_of_not_mem {c : Char} {l : List Char} (h : c ∉ l) :
    removeFirst c l = l := by
  induction l with
  | nil => rfl
  | cons x xs ih =>
    have hx : x ≠ c := fun he => h (he ▸ List.mem_cons_self x xs)
    simp only [removeFirst, if_neg hx]
    rw [ih (fun hm => h (List.mem_cons_of_mem x hm))]

theorem not_mem_of_all_digit {c : Char} {l : List Char}
    (hall : ∀ x ∈ l, x.isDigit = true) (hc : c.isDigit = false) : c ∉ l := by
  intro hm
  rw [hall c hm] at hc
  cases hc

theorem dropWhile_ws_of_all {l : List Char} (h : ∀ c ∈ l, isPyWs c = false) :
    l.dropWhile isPyWs = l := by
  cases l with
  | nil => rfl
  | cons c cs => rw [List.dropWhile_cons, h c (List.mem_cons_self c cs)]; simp

theorem trimWs_of_all {l : List Char} (h : ∀ c ∈ l, isPyWs c = false) :
    trimWs l = l := by
  unfold trimWs
  rw [dropWhile_ws_of_all h, dropWhile_ws_of_all, List.reverse_reverse]
  intro c hc
  exact h c (List.mem_reverse.mp hc)

theorem parseIntDigits_cons_digit {c : Char} (hc : c.isDigit = true)
    (acc : Nat) (l : List Char) :
    parseIntDigits acc (c :: l) = parseIntDigits (acc * 10 + dVal c) l := by
  rw [parseIntDigits.eq_def]
  simp [hc]

theorem parseIntDigits_append_digit (xs : List Char) (acc k : Nat)
    (hall : ∀ c ∈ xs, c.isDigit = true) :
    parseIntDigits acc (xs ++ [digitChar k])
      = (parseIntDigits acc xs).map fun v => v * 10 + k % 10 := by
  induction xs generalizing acc with
  | nil =>
    simp [parseIntDigits, digitChar_isDigit, dVal_digitChar]
  | cons c cs ih =>
    have hc := hall c (List.mem_cons_self c cs)
    rw [List.cons_append, parseIntDigits_cons_digit hc,
      parseIntDigits_cons_digit hc]
    exact ih _ (fun x hx => hall x (List.mem_cons_of_mem c hx))

theorem parseUnsigned_append_digit (xs : List Char) (k : Nat) (hne : xs ≠ [])
    (hall : ∀ c ∈ xs, c.isDigit = true) :
    parseUnsigned (xs ++ [digitChar k])
      = (parseUnsigned xs).map fun v => v * 10 + k % 10 := by
  cases xs with
  | nil => exact absurd rfl hne
  | cons c cs =>
    have hc := hall c (List.mem_cons_self c cs)
    simp only [List.cons_append, parseUnsigned, hc, if_true]
    exact parseIntDigits_append_digit cs _ k fun x hx => hall x (List.mem_cons_of_mem c hx)

theorem natDecCharsAux_all_digit (fuel n : Nat) :
    ∀ c ∈ natDecCharsAux fuel n, c.isDigit = true := by
  induction fuel generalizing n with
  | zero => intro c hc; cases hc
  | succ fuel ih =>
    intro c hc
    unfold natDecCharsAux at hc
    by_cases h : n < 10
    · rw [if_pos h, List.mem_singleton] at hc
      rw [hc]
      exact digitChar_isDigit n
    · rw [if_neg h] at hc
      rcases List.mem_append.mp hc with h1 | h1
      · exact ih (n / 10) c h1
      · rw [List.mem_singleton] at h1
        rw [h1]
        exact digitChar_isDigit _

theorem natDecCharsAux_ne_nil (fuel n : Nat) : natDecCharsAux (fuel + 1) n ≠ [] := by
  unfold natDecCharsAux
  by_cases h : n < 10
  · rw [if_pos h]
    exact List.cons_ne_nil _ _
  · rw [if_neg h]
    intro hEq
    exact absurd (List.append_eq_nil.mp hEq).2 (List.cons_ne_nil _ _)

theorem parseUnsigned_natDecCharsAux (fuel : Nat) :
    ∀ n, n < 10 ^ (fuel + 1) →
      parseUnsigned (natDecCharsAux (fuel + 1) n) = some n := by
  induction fuel with
  | zero =>
    intro n hn
    have h : n < 10 := by simpa using hn
    unfold natDecCharsAux
    rw [if_pos h]
    simp [parseUnsigned, parseIntDigits, digitChar_isDigit, dVal_digitChar,
      Nat.mod_eq_of_lt h]
  | succ fuel ih =>
    intro n hn
    by_cases h : n < 10
    · unfold natDecCharsAux
      rw [if_pos h]
      simp [parseUnsigned, parseIntDigits, digitChar_isDigit, dVal_digitChar,
        Nat.mod_eq_of_lt h]
    · have hdiv : n / 10 < 10 ^ (fuel + 1) := by
        rw [Nat.div_lt_iff_lt_mul (by omega)]
        calc n < 10 ^ (fuel + 1 + 1) := hn
        _ = 10 ^ (fuel + 1) * 10 := by ring
      show parseUnsigned (natDecCharsAux (fuel + 1 + 1) n) = some n
      unfold natDecCharsAux
      rw [if_neg h]
      rw [parseUnsigned_append_digit _ _ (natDecCharsAux_ne_nil _ _)
        (natDecCharsAux_all_digit _ _)]
      rw [ih (n / 10) hdiv]
      have hmod : n / 10 * 10 + n % 10 = n := by omega
      simp [hmod]

theorem lt_ten_pow (n : Nat) : n < 10 ^ (n + 1) := by
  have h1 : n < 2 ^ n := Nat.lt_two_pow n
  have h2 : 2 ^ n ≤ 10 ^ n := Nat.pow_le_pow_left (by omega) n
  have h3 : 10 ^ n ≤ 10 ^ (n + 1) := Nat.pow_le_pow_right (by omega) (by omega)
  omega

theorem parseUnsigned_decNat (n : Nat) :
    parseUnsigned (natDecCharsAux (n + 1) n) = some n :=
  parseUnsigned_natDecCharsAux n n (lt_ten_pow n)

theorem pyIsDigit_of (l : List Char) (hne : l ≠ [])
    (hall : ∀ c ∈ l, c.isDigit = true) : pyIsDigit l = true := by
  unfold pyIsDigit
  rw [Bool.and_eq_true]
  constructor
  · cases l with
    | nil => exact absurd rfl hne
    | cons a as => rfl
  · rw [List.all_eq_true]
    exact hall

theorem digitCheck_of_digits (l : List Char) (hne : l ≠ [])
    (hall : ∀ c ∈ l, c.isDigit = true) : digitCheck l = true := by
  unfold digitCheck
  rw [removeFirst_of_not_mem (not_mem_of_all_digit hall (by decide)),
    removeFirst_of_not_mem (not_mem_of_all_digit hall (by decide))]
  exact pyIsDigit_of l hne hall

theorem pyInt_of_digits (l : List Char) (hne : l ≠ [])
    (hall : ∀ c ∈ l, c.isDigit = true) :
    pyInt l = (parseUnsigned l).map fun n => (n : Int) := by
  unfold pyInt
  rw [trimWs_of_all (fun c hc => isDigit_not_ws (hall c hc))]
  cases l with
  | nil => exact absurd rfl hne
  | cons c cs =>
    have hc := hall c (List.mem_cons_self c cs)
    have h1 : c ≠ '-' := (isDigit_ne_chars hc).1
    have h2 : c ≠ '+' := (isDigit_ne_chars hc).2.2.1
    split
    · rename_i rest heq
      rw [List.cons.injEq] at heq
      exact absurd heq.1 h1
    · rename_i rest heq
      rw [List.cons.injEq] at heq
      exact absurd heq.1 h2
    · rfl

theorem pyInt_neg_digits (l : List Char) (_hne : l ≠ [])
    (hall : ∀ c ∈ l, c.isDigit = true) :
    pyInt ('-' :: l) = (parseUnsigned l).map fun n => -(n : Int) := by
  unfold pyInt
  rw [trimWs_of_all]
  · rfl
  · intro c hc
    rcases List.mem_cons.mp hc with h | h
    · rw [h]; decide
    · exact isDigit_not_ws (hall c h)

theorem digitCheck_decChars (t : Int) : digitCheck (decChars t) = true := by
  unfold decChars
  by_cases ht : t < 0
  · rw [if_pos ht]
    unfold digitCheck
    have h1 : removeFirst '-' ('-' :: natDecCharsAux (t.natAbs + 1) t.natAbs)
        = natDecCharsAux (t.natAbs + 1) t.natAbs := by
      unfold removeFirst
      rw [if_pos rfl]
    rw [h1, removeFirst_of_not_mem
      (not_mem_of_all_digit (natDecCharsAux_all_digit _ _) (by decide))]
    exact pyIsDigit_of _ (natDecCharsAux_ne_nil _ _) (natDecCharsAux_all_digit _ _)
  · rw [if_neg ht]
    exact digitCheck_of_digits _ (natDecCharsAux_ne_nil _ _) (natDecCharsAux_all_digit _ _)

theorem pyInt_decChars (t : Int) : pyInt (decChars t) = some t := by
  unfold decChars
  by_cases ht : t < 0
  · rw [if_pos ht]
    rw [pyInt_neg_digits _ (natDecCharsAux_ne_nil _ _) (natDecCharsAux_all_digit _ _)]
    rw [parseUnsigned_decNat]
    have h : -((t.natAbs : Nat) : Int) = t := by omega
    show some (-((t.natAbs : Nat) : Int)) = some t
    rw [h]
  · rw [if_neg ht]
    rw [pyInt_of_digits _ (natDecCharsAux_ne_nil _ _) (natDecCharsAux_all_digit _ _)]
    rw [parseUnsigned_decNat]
    have h : ((t.natAbs : Nat) : Int) = t := by omega
    show some ((t.natAbs : Nat) : Int) = some t
    rw [h]

theorem digitCheck_of_pureNumeric {l : List Char} (h : pureNumeric l = true) :
    digitCheck l = true := by
  unfold pureNumeric at h
  split at h
  · rename_i ds
    have hne : ds ≠ [] := by
      intro hnil
      rw [hnil] at h
      cases h
    unfold digitCheck
    have h1 : removeFirst '-' ('-' :: ds) = ds := by
      unfold removeFirst
      rw [if_pos rfl]
    unfold pyIsDigit at h
    rw [Bool.and_eq_true, List.all_eq_true] at h
    rw [h1, removeFirst_of_not_mem (not_mem_of_all_digit h.2 (by decide))]
    exact pyIsDigit_of ds hne h.2
  · have hne : l ≠ [] := by
      intro hnil
      rw [hnil] at h
      cases h
    unfold pyIsDigit at h
    rw [Bool.and_eq_true, List.all_eq_true] at h
    exact digitCheck_of_digits l hne h.2

theorem timeOnlyBranch_cases (l : List Char) :
    (∃ msg, timeOnlyBranch l = (none, .err msg)) ∨
    (∃ v, timeOnlyBranch l = (some v, .ok)) ∨
    timeOnlyBranch l = (none, .rfalse) := by
  unfold timeOnlyBranch
  by_cases h1 : l.count ':' > 1
  · rw [if_pos h1]
    cases hm : (splitCh ':' l).mapM fun p => pyInt (trimWs p) with
    | none => exact Or.inl ⟨_, rfl⟩
    | some parts =>
      rcases parts with _ | ⟨a, _ | ⟨b, _ | ⟨c, _ | ⟨d, rest⟩⟩⟩⟩
      · exact Or.inl ⟨_, rfl⟩
      · exact Or.inl ⟨_, rfl⟩
      · exact Or.inl ⟨_, rfl⟩
      · by_cases hb : 0 ≤ a ∧ a ≤ 23 ∧ 0 ≤ b ∧ b ≤ 59 ∧ 0 ≤ c ∧ c ≤ 59
        · exact Or.inr (Or.inl ⟨.todv a.toNat b.toNat c.toNat, by simp [hb]⟩)
        · exact Or.inl ⟨"Invalid value entered", by simp [hb]⟩
      · exact Or.inl ⟨_, rfl⟩
  · rw [if_neg h1]
    by_cases h2 : l.count ':' > 0
    · rw [if_pos h2]
      cases hm : (splitCh ':' l).mapM fun p => pyInt (trimWs p) with
      | none => exact Or.inl ⟨_, rfl⟩
      | some parts =>
        rcases parts with _ | ⟨a, _ | ⟨b, _ | ⟨c, rest⟩⟩⟩
        · exact Or.inl ⟨_, rfl⟩
        · exact Or.inl ⟨_, rfl⟩
        · by_cases hb : 0 ≤ a ∧ a ≤ 23 ∧ 0 ≤ b ∧ b ≤ 59
          · exact Or.inr (Or.inl ⟨.todv a.toNat b.toNat 0, by simp [hb]⟩)
          · exact Or.inl ⟨"Invalid value entered", by simp [hb]⟩
        · exact Or.inl ⟨_, rfl⟩
    · rw [if_neg h2]
      by_cases h3 : digitCheckNoDot l = true
      · rw [if_pos h3]
        cases hp : pyInt l with
        | none => exact Or.inl ⟨_, rfl⟩
        | some s =>
          by_cases hb : 0 ≤ s ∧ s ≤ 59
          · exact Or.inr (Or.inl ⟨.todv 0 0 s.toNat, by simp [hb]⟩)
          · exact Or.inl ⟨"Invalid value entered", by simp [hb]⟩
      · rw [if_neg h3]
        exact Or.inr (Or.inr rfl)

theorem dateStringBranch_cases (l : List Char) :
    (∃ msg, dateStringBranch l = (none, .err msg)) ∨
    (∃ v, dateStringBranch l = (some v, .ok)) := by
  unfold dateStringBranch
  by_cases hsp : l.contains ' ' = true
  · rw [if_pos hsp]
    cases h1 : strptimeDT (sepOf l) true l with
    | some v => exact Or.inr ⟨.dtv v, rfl⟩
    | none =>
      cases h2 : strptimeDT (sepOf l) false l with
      | some v => exact Or.inr ⟨.dtv v, rfl⟩
      | none => exact Or.inl ⟨_, rfl⟩
  · rw [if_neg hsp]
    cases h1 : strptimeD (sepOf l) l with
    | some v => exact Or.inr ⟨.dtv v, rfl⟩
    | none => exact Or.inl ⟨_, rfl⟩

/-- C2: `fromClient` accepts the decimal string of every timestamp in the
signed-31-bit range `[-2^30, 2^31-2]`, storing
`ExtendedDateTime.fromtimestamp(t)` and returning `None`; a pure numeric
string whose integer value lies outside that range is rejected with
`"Invalid value entered"`.  This holds for every bone configuration since
the numeric branch of line 106 precedes all others. -/
theorem dateBone_c2 (cfg : DateBoneCfg) (t : Int) :
    ((-(2 ^ 30) ≤ t ∧ t ≤ 2 ^ 31 - 2) →
      fromClient cfg (some (decString t)) = (some (.tsv t), .ok))
    ∧ (∀ s : String, pureNumeric s.data = true → pyInt s.data = some t →
        (t < -(2 ^ 30) ∨ t > 2 ^ 31 - 2) →
        fromClient cfg (some s) = (none, .err "Invalid value entered")) := by
  constructor
  · intro hr
    have hstr : pyStr (some (decString t)) = decChars t := rfl
    have hnr : ¬(t < -(2 ^ 30) ∨ t > 2 ^ 31 - 2) := by omega
    simp [fromClient, hstr, digitCheck_decChars, pyInt_decChars, hnr]
    all_goals omega
  · intro s hpn hpi hr
    have hstr : pyStr (some s) = s.data := rfl
    simp [fromClient, hstr, digitCheck_of_pureNumeric hpn, hpi, hr]
    all_goals omega

/-- C2 witness: the in-range timestamp 90 parses to `fromtimestamp(90)`;
`str(2**31 - 1)` is rejected with `"Invalid value entered"`. -/
theorem dateBone_c2_witness :
    fromClient cfgDT (some (decString 90)) = (some (.tsv 90), .ok)
    ∧ fromClient cfgDT (some "2147483647") = (none, .err "Invalid value entered") :=
  ⟨(dateBone_c2 cfgDT 90).1 (by decide),
   (dateBone_c2 cfgDT 2147483647).2 "2147483647" (by decide) (by decide) (by decide)⟩

/-- C1 counterexample: on the default `date=True, time=True` configuration
the input `"1-2"` passes the line-106 digit check (removing the first `"-"`
leaves `"12"`) but `int("1-2")` raises an uncaught `ValueError`, so the
call neither returns an error string with a cleared cache nor stores a
value — the claimed dichotomy of outcomes is violated. -/
theorem dateBone_c1_counterexample : ¬ c1TwoOutcomes cfgDT (some "1-2") := by
  have h : fromClient cfgDT (some "1-2") = (none, .raised "ValueError") := by decide
  rintro (⟨msg, hm⟩ | ⟨v, hv⟩)
  · rw [h] at hm
    simp at hm
  · rw [h] at hv
    simp at hv

/-- C1 amended: every `fromClient` call has exactly one of four outcomes —
it caches `None` and returns an error string; it caches the parsed value
and returns `None`; on a time-only bone it caches `None` and returns the
bare `False` of line 126; or it raises `ValueError` (leaving the cache
`None`, since line 105 runs first), which happens exactly when the input
passes the line-106 digit check without being an integer literal.  Never
both an error and a stored value, and every non-success outcome leaves
`valuesCache[name]` equal to `None`. -/
theorem dateBone_c1_amended (cfg : DateBoneCfg) (value : Option String) :
    (∃ msg, fromClient cfg value = (none, .err msg)) ∨
    (∃ v, fromClient cfg value = (some v, .ok)) ∨
    (fromClient cfg value = (none, .rfalse) ∧ cfg.date = false ∧ cfg.time = true) ∨
    (fromClient cfg value = (none, .raised "ValueError")
      ∧ digitCheck (pyStr value) = true ∧ pyInt (pyStr value) = none) := by
  by_cases hdc : digitCheck (pyStr value) = true
  · cases hpi : pyInt (pyStr value) with
    | none =>
      refine Or.inr (Or.inr (Or.inr ⟨?_, hdc, rfl⟩))
      simp [fromClient, hdc, hpi]
    | some t =>
      by_cases hr : t < -(2 ^ 30) ∨ t > 2 ^ 31 - 2
      · refine Or.inl ⟨"Invalid value entered", ?_⟩
        simp [fromClient, hdc, hpi]
        all_goals omega
      · refine Or.inr (Or.inl ⟨.tsv t, ?_⟩)
        simp [fromClient, hdc, hpi]
        all_goals omega
  · rw [Bool.not_eq_true] at hdc
    by_cases hto : (!cfg.date && cfg.time) = true
    · have hcfg : cfg.date = false ∧ cfg.time = true := by
        rw [Bool.and_eq_true, Bool.not_eq_true'] at hto
        exact hto
      have hred : fromClient cfg value = timeOnlyBranch (pyStr value) := by
        simp [fromClient, hdc, hto]
      rcases timeOnlyBranch_cases (pyStr value) with ⟨msg, hm⟩ | ⟨v, hv⟩ | hf
      · exact Or.inl ⟨msg, by rw [hred, hm]⟩
      · exact Or.inr (Or.inl ⟨v, by rw [hred, hv]⟩)
      · exact Or.inr (Or.inr (Or.inl ⟨by rw [hred, hf], hcfg.1, hcfg.2⟩))
    · rw [Bool.not_eq_true] at hto
      by_cases hnow : (pyToLower (pyStr value)).take 3 = ['n', 'o', 'w']
      · refine Or.inr (Or.inl ⟨.nowv (if (pyStr value).length > 4
          then (pyInt ((pyStr value).drop 3)).getD 0 else 0), ?_⟩)
        simp [fromClient, hdc, hto, hnow]
      · cases value with
        | none =>
          exact Or.inl ⟨"Invalid value entered", by simp [fromClient, hdc, hto, hnow]⟩
        | some s =>
          have hred : fromClient cfg (some s) = dateStringBranch s.data := by
            simp [fromClient, hdc, hto, hnow]
          rcases dateStringBranch_cases s.data with ⟨msg, hm⟩ | ⟨v, hv⟩
          · exact Or.inl ⟨msg, by rw [hred, hm]⟩
          · exact Or.inr (Or.inl ⟨v, by rw [hred, hv]⟩)

/-- C3 counterexample: on a time-only bone the digits-only input `"90"`
does not store `time(second=90)` — the numeric-timestamp branch of
line 106 captures it first. -/
theorem dateBone_c3_counterexample : ¬ c3SecondsClaim := by
  unfold c3SecondsClaim
  decide

/-- C3 amended: on a time-only bone, `"14:30"` stores 14:30:00 and
`"14:30:15"` stores 14:30:15 as time-of-day values; the digits-only input
`"90"` is captured by the earlier numeric-timestamp branch and stores
`ExtendedDateTime.fromtimestamp(90)` (a datetime, not a time-of-day) — the
bare-seconds branch of line 122 is unreachable because every input passing
its digit check already passed the line-106 check. -/
theorem dateBone_c3_amended :
    fromClient cfgTimeOnly (some "14:30") = (some (.todv 14 30 0), .ok)
    ∧ fromClient cfgTimeOnly (some "14:30:15") = (some (.todv 14 30 15), .ok)
    ∧ fromClient cfgTimeOnly (some "90") = (some (.tsv 90), .ok) := by
  refine ⟨by decide, by decide, by decide⟩

/-- C4: the claim that `fromClient` never raises is contradicted by the
code: `"3.5"` passes the line-106 digit check (the check removes one `"."`
before testing `isdigit`), and then the bare `int(value)` on line 107 —
outside any `try` — raises `ValueError` to the caller.  The clearly
intended behavior (line 109 uses `float(value)`, and the docstring promises
a returned error string) is to report invalid input via the return value. -/
theorem dateBone_c4_bug :
    fromClient cfgDT (some "3.5") = (none, .raised "ValueError") := by decide

/-- C10: on a time-only bone (`date=False, time=True`), any input that
fails the numeric digit check and contains no colon — such as `"now"` —
makes `fromClient` return the bare boolean `False` (neither `None` nor an
error string) with `valuesCache[name]` left `None`; the `"now"` keyword is
never honored because the time-only branch precedes the `"now"` branch. -/
theorem dateBone_c10 (value : Option String)
    (h1 : digitCheck (pyStr value) = false)
    (h2 : (pyStr value).count ':' = 0) :
    fromClient cfgTimeOnly value = (none, .rfalse) := by
  have hnd : digitCheckNoDot (pyStr value) = false := by
    by_cases h : digitCheckNoDot (pyStr value) = true
    · exfalso
      unfold digitCheckNoDot at h
      unfold pyIsDigit at h
      rw [Bool.and_eq_true, List.all_eq_true] at h
      have hnm : '.' ∉ removeFirst '-' (pyStr value) :=
        not_mem_of_all_digit h.2 (by decide)
      have hdc : digitCheck (pyStr value) = true := by
        unfold digitCheck
        rw [removeFirst_of_not_mem hnm]
        unfold pyIsDigit
        rw [Bool.and_eq_true, List.all_eq_true]
        exact h
      rw [hdc] at h1
      cases h1
    · rw [Bool.not_eq_true] at h
      exact h
  have hred : fromClient cfgTimeOnly value = timeOnlyBranch (pyStr value) := by
    simp [fromClient, h1, cfgTimeOnly]
  rw [hred]
  unfold timeOnlyBranch
  rw [h2]
  simp [hnd]

/-- C10 witness: the input `"now"` on a time-only bone yields the bare
`False` with a cleared cache. -/
theorem dateBone_c10_witness :
    fromClient cfgTimeOnly (some "now") = (none, .rfalse) :=
  dateBone_c10 (some "now") (by decide) (by decide)

theorem daysInMonth_le (y m : Nat) : daysInMonth y m ≤ 31 := by
  unfold daysInMonth
  split
  · split <;> omega
  · split <;> omega

theorem pN2_pad2 (lo2 hi2 lo1 hi1 n : Nat) (rest : List Char)
    (h1 : lo2 ≤ n) (h2 : n ≤ hi2) (h99 : hi2 ≤ 99) :
    pN2 lo2 hi2 lo1 hi1 (pad2 n ++ rest) = some (n, rest) := by
  have hn : n ≤ 99 := le_trans h2 h99
  have hv1 : dVal (digitChar (n / 10)) = n / 10 := by
    rw [dVal_digitChar]
    omega
  have hv2 : dVal (digitChar n) = n % 10 := dVal_digitChar n
  have hval : dVal (digitChar (n / 10)) * 10 + dVal (digitChar n) = n := by
    rw [hv1, hv2]
    omega
  show pN2 lo2 hi2 lo1 hi1 (digitChar (n / 10) :: digitChar n :: rest) = some (n, rest)
  simp only [pN2]
  rw [if_pos ⟨digitChar_isDigit _, digitChar_isDigit _,
    by rw [hval]; exact h1, by rw [hval]; exact h2⟩, hval]

theorem p4Y_pad4 (y : Nat) (rest : List Char) (hy : y ≤ 9999) :
    p4Y (pad4 y ++ rest) = some (y, rest) := by
  have e1 : dVal (digitChar (y / 1000)) = y / 1000 := by
    rw [dVal_digitChar]
    omega
  have e2 : dVal (digitChar (y / 100)) = y / 100 % 10 := dVal_digitChar _
  have e3 : dVal (digitChar (y / 10)) = y / 10 % 10 := dVal_digitChar _
  have e4 : dVal (digitChar y) = y % 10 := dVal_digitChar _
  show p4Y (digitChar (y / 1000) :: digitChar (y / 100) :: digitChar (y / 10)
    :: digitChar y :: rest) = some (y, rest)
  simp only [p4Y]
  rw [if_pos ⟨digitChar_isDigit _, digitChar_isDigit _, digitChar_isDigit _,
    digitChar_isDigit _⟩, e1, e2, e3, e4]
  have : ((y / 1000 * 10 + y / 100 % 10) * 10 + y / 10 % 10) * 10 + y % 10 = y := by
    omega
  rw [this]

theorem pLit_cons (ch : Char) (rest : List Char) : pLit ch (ch :: rest) = some rest := by
  simp [pLit]

theorem pWs1_space_pad2 (k : Nat) (rest : List Char) :
    pWs1 (' ' :: (pad2 k ++ rest)) = some (pad2 k ++ rest) := by
  show pWs1 (' ' :: (digitChar (k / 10) :: digitChar k :: rest))
    = some (digitChar (k / 10) :: digitChar k :: rest)
  simp only [pWs1]
  rw [if_pos (by decide), List.dropWhile_cons, isPyWs_digitChar]
  simp

theorem pDateFields_eu_fmt (y mo d : Nat) (rest : List Char)
    (hy : y ≤ 9999) (hmo1 : 1 ≤ mo) (hmo2 : mo ≤ 12) (hd1 : 1 ≤ d) (hd2 : d ≤ 31) :
    pDateFields .eu (pad2 d ++ '.' :: (pad2 mo ++ '.' :: (pad4 y ++ rest)))
      = some ((y, mo, d), rest) := by
  simp only [pDateFields]
  rw [pN2_pad2 1 31 1 9 d _ hd1 hd2 (by omega)]
  simp only [Option.bind_eq_bind, Option.some_bind]
  rw [pLit_cons]
  simp only [Option.some_bind]
  rw [pN2_pad2 1 12 1 9 mo _ hmo1 hmo2 (by omega)]
  simp only [Option.some_bind]
  rw [pLit_cons]
  simp only [Option.some_bind]
  rw [p4Y_pad4 y rest hy]
  simp only [Option.some_bind]
  rfl

theorem validB_fields {v : PyDateTime} (hv : validB v = true) :
    1 ≤ v.year ∧ v.year ≤ 9999 ∧ 1 ≤ v.month ∧ v.month ≤ 12 ∧
    1 ≤ v.day ∧ v.day ≤ daysInMonth v.year v.month ∧
    v.hour ≤ 23 ∧ v.minute ≤ 59 ∧ v.second ≤ 59 ∧ v.microsecond ≤ 999999 := by
  unfold validB at hv
  simp only [Bool.and_eq_true, decide_eq_true_eq] at hv
  tauto

/-- The strftime/strptime round trip of serialize and unserialize: for a
constructor-valid datetime, re-parsing its `"%d.%m.%Y %H:%M:%S"` rendering
reproduces the value with the microsecond field cleared. -/
theorem strptime_strftime (v : PyDateTime) (hv : validB v = true) :
    strptimeDT .eu true (strftimeDT v) = some (truncSec v) := by
  obtain ⟨hy1, hy2, hmo1, hmo2, hd1, hd2, hh, hmi, hs, hus⟩ := validB_fields hv
  have hd31 : v.day ≤ 31 := le_trans hd2 (daysInMonth_le _ _)
  simp only [strftimeDT, strptimeDT]
  rw [pDateFields_eu_fmt v.year v.month v.day _ hy2 hmo1 hmo2 hd1 hd31]
  simp only [Option.bind_eq_bind, Option.some_bind]
  rw [pWs1_space_pad2]
  simp only [Option.some_bind]
  rw [pN2_pad2 0 23 0 9 v.hour _ (by omega) hh (by omega)]
  simp only [Option.some_bind]
  rw [pLit_cons]
  simp only [Option.some_bind]
  rw [pN2_pad2 0 59 0 9 v.minute _ (by omega) hmi (by omega)]
  simp only [Option.some_bind]
  rw [pLit_cons]
  simp only [Option.some_bind]
  rw [if_true]
  rw [show pad2 v.second = pad2 v.second ++ ([] : List Char) from (List.append_nil _).symm]
  rw [pN2_pad2 0 59 0 9 v.second [] (by omega) hs (by omega)]
  simp only [Option.some_bind]
  show mkDateTime v.year v.month v.day v.hour v.minute v.second = some (truncSec v)
  unfold mkDateTime
  rw [if_pos]
  · rfl
  · unfold validB
    simp only [Bool.and_eq_true, decide_eq_true_eq]
    refine ⟨⟨⟨⟨⟨⟨⟨⟨⟨hy1, hy2⟩, hmo1⟩, hmo2⟩, hd1⟩, hd2⟩, hh⟩, hmi⟩, hs⟩, by omega⟩

/-- C8: for a non-localized date bone, serialize followed by unserialize
reproduces the cached datetime truncated to second precision: serialize
stores the strftime/strptime-truncated value (readLocalized is the
identity), and unserialize re-truncates it and stores it back without any
localization (`setLocalized` returns immediately when `localize=False`),
leaving the request state untouched. -/
theorem dateBone_c8 (tb : Bool) (ctx : TZCtx) (v : PyDateTime)
    (hv : validB v = true) :
    serialize ⟨true, tb, false⟩ (some (.dtv v)) = .ok (some (.dtv (truncSec v)))
    ∧ unserialize ⟨true, tb, false⟩ ctx (some (.dtv (truncSec v)))
        = .ok (some (.dtv (truncSec v)), ctx) := by
  have hv2 : validB (truncSec v) = true := by
    obtain ⟨hy1, hy2, hmo1, hmo2, hd1, hd2, hh, hmi, hs, hus⟩ := validB_fields hv
    unfold validB truncSec
    simp only [Bool.and_eq_true, decide_eq_true_eq]
    refine ⟨⟨⟨⟨⟨⟨⟨⟨⟨hy1, hy2⟩, hmo1⟩, hmo2⟩, hd1⟩, hd2⟩, hh⟩, hmi⟩, hs⟩, by omega⟩
  have h1 := strptime_strftime v hv
  have h2 := strptime_strftime (truncSec v) hv2
  have h22 : strptimeDT .eu true (strftimeDT (truncSec v)) = some (truncSec v) := by
    rw [h2]
    rfl
  constructor
  · simp [serialize, cvTruthy, strftimeCV, h1, readLocalized]
  · simp [unserialize, h22, setLocalized]

/-- C8 witness: a concrete round trip at 2020-05-17 13:45:59.123456. -/
theorem dateBone_c8_witness :
    serialize ⟨true, true, false⟩ (some (.dtv ⟨2020, 5, 17, 13, 45, 59, 123456⟩))
      = .ok (some (.dtv (truncSec ⟨2020, 5, 17, 13, 45, 59, 123456⟩)))
    ∧ unserialize ⟨true, true, false⟩ ctxNoHeader
        (some (.dtv (truncSec ⟨2020, 5, 17, 13, 45, 59, 123456⟩)))
      = .ok (some (.dtv (truncSec ⟨2020, 5, 17, 13, 45, 59, 123456⟩)), ctxNoHeader) :=
  dateBone_c8 true ctxNoHeader ⟨2020, 5, 17, 13, 45, 59, 123456⟩ (by decide)

/-- C5: the claimed to-UTC conversion in serialize never happens.
`readLocalized` — the function serialize routes every truthy value through
after the second-precision string round trip — returns its argument
unchanged for every configuration, including `date=True, time=True,
localize=True`, because the guard on line 195 reads
`if 1 or not self.localize or ...`: the literal `1` short-circuits the
whole condition, making the tag-with-zone/normalize/re-impose/convert
sequence of lines 197-210 dead code.  This contradicts the function's own
docstring ("convert it back to UTC") and the `localize` parameter's
documented purpose. -/
theorem dateBone_c5_bug (cfg : DateBoneCfg) (v : PyDateTime) :
    readLocalized cfg v = v := rfl

/-- C6: the claim that `buildDBFilter` never raises and skips invalid
filter values is contradicted by the code: for any raw-filter key starting
with the bone name (whatever its value), the loop body calls
`self.fromClient(key, rawFilter)` — omitting one of `fromClient`'s three
required arguments — so Python raises `TypeError` before any value is
examined (the body also reads the nonexistent attribute `self.value`).
Only when no key matches does the query come back unchanged. -/
theorem dateBone_c6_bug :
    buildDBFilter "creationdate" [("creationdate", "not-a-date")] []
      = .error "TypeError"
    ∧ buildDBFilter "creationdate" [("other", "17.05.2020")] [("k", "v")]
      = .ok [("k", "v")] := by
  constructor <;> rfl

/-- C7 counterexample: with an empty request-scoped cache and no
geolocation country header, `guessTimeZone` returns `"UTC"` but does not
cache it — the early `return` of line 179 skips the cache write of
line 189 — refuting the claim that the result is cached in request-scoped
storage in every case. -/
theorem dateBone_c7_counterexample : ¬ c7CachedAfter ctxNoHeader := by
  simp [c7CachedAfter, guessTimeZone, ctxNoHeader]

/-- C7 amended: `guessTimeZone` equals the spec-side resolution procedure
with the caching clause corrected — cached value first; missing request
context, missing header, missing pytz, or unknown country yield `"UTC"`
*without* caching; a successful country lookup yields the single zone, the
`"EST"` fallback for `"us"`, or `"UTC"` when the country has several
zones, and only these resolved results are cached. -/
theorem dateBone_c7_amended (ctx : TZCtx) : guessTimeZone ctx = guessTimeZoneSpec ctx := by
  obtain ⟨hr, rtz, ch, pa, cz⟩ := ctx
  cases hr <;> cases rtz <;> cases ch <;> cases pa <;>
    simp [guessTimeZone, guessTimeZoneSpec]
  all_goals
    rename_i country
    cases hcz : cz country with
    | none => simp [hcz]
    | some zs =>
      rcases zs with _ | ⟨z1, _ | ⟨z2, zr⟩⟩ <;> simp [hcz]

theorem lookupKV_langFromClient (multiple : Bool) (languages : List String)
    (name : String) (data : List (String × String)) (lang : String)
    (hmem : lang ∈ languages) :
    lookupKV (langFromClient multiple languages name data) lang
      = some (match lookupKV data (name ++ "." ++ lang) with
              | some raw => if multiple then .multi [raw] else .single (some raw)
              | none => if multiple then .multi [] else .single none) := by
  induction languages with
  | nil => cases hmem
  | cons l ls ih =>
    by_cases heq : l = lang
    · subst heq
      simp [langFromClient, lookupKV]
    · rcases List.mem_cons.mp hmem with h | h
      · exact absurd h.symm heq
      · simpa [langFromClient, lookupKV, heq] using ih h

/-- C9 (modelled from the spec, see `langFromClient`): after `fromClient`
on a bone configured with a language list, the set of language keys in the
cached value equals exactly the configured list — every configured
language is present, an unsubmitted one holding the default (`None` for a
single bone, the empty list for a multiple bone) and a submitted one
holding the parsed value — and no unconfigured key occurs. -/
theorem langBone_c9 (multiple : Bool) (languages : List String) (name : String)
    (data : List (String × String)) :
    ((langFromClient multiple languages name data).map Prod.fst = languages)
    ∧ (∀ lang ∈ languages, lookupKV data (name ++ "." ++ lang) = none →
        lookupKV (langFromClient multiple languages name data) lang
          = some (if multiple then .multi [] else .single none))
    ∧ (∀ lang ∈ languages, ∀ raw,
        lookupKV data (name ++ "." ++ lang) = some raw →
        lookupKV (langFromClient multiple languages name data) lang
          = some (if multiple then .multi [raw] else .single (some raw))) := by
  refine ⟨?_, ?_, ?_⟩
  · rw [langFromClient, List.map_map]
    exact List.map_id languages
  · intro lang hmem hnone
    rw [lookupKV_langFromClient multiple languages name data lang hmem, hnone]
  · intro lang hmem raw hraw
    rw [lookupKV_langFromClient multiple languages name data lang hmem, hraw]

/-- C9 witness: languages `["en", "de"]` with only `name.de` submitted —
the key set is exactly `["en", "de"]`, the unsubmitted `"en"` maps to
`None`, and `"de"` holds the submitted value. -/
theorem langBone_c9_witness :
    ((langFromClient false ["en", "de"] "myStringBone"
        [("myStringBone.de", "foo")]).map Prod.fst = ["en", "de"])
    ∧ lookupKV (langFromClient false ["en", "de"] "myStringBone"
        [("myStringBone.de", "foo")]) "en" = some (.single none)
    ∧ lookupKV (langFromClient false ["en", "de"] "myStringBone"
        [("myStringBone.de", "foo")]) "de" = some (.single (some "foo")) := by
  have h := langBone_c9 false ["en", "de"] "myStringBone" [("myStringBone.de", "foo")]
  refine ⟨h.1, ?_, ?_⟩
  · exact h.2.1 "en" (by simp) (by decide)
  · exact h.2.2 "de" (by simp) "foo" (by decide)

end ViurDateBone
